import Mathlib

/-!
Shallow embedding of the Z-score threshold-sweep analysis script
(src/Z-score.py).  Floating-point numbers are modelled as exact
rationals; the z-score standardization, which divides by a square
root, is modelled over the reals.  The global variable
export_results is modelled by explicit state passing, and the
"display a warning and return" error paths by Except values.
-/

namespace ZScore

/-- Dataset group: Set A is the baseline (the spec's REFERENCE),
Set B the screened set (the spec's CANDIDATE). -/
inductive Group where
  | reference
  | candidate
deriving DecidableEq

/-- One row of the source data frame before scoring:
columns CPU, Set, IsTrueOutlier, Label. -/
structure Observation where
  value : ℚ
  group : Group
  isTrueOutlier : Bool
  label : String
deriving DecidableEq

/-- One row of the frame after the Z-Score column has been added.  The
threshold layer reads only Set, IsTrueOutlier and Z-Score; the scores it
compares are modelled as exact rationals. -/
structure ScoredObservation where
  value : ℚ
  group : Group
  isTrueOutlier : Bool
  label : String
  zScore : ℚ
deriving DecidableEq

/-- Loop body, line 46: detected = df[(df.Set == B) and (abs Z > threshold)]. -/
def detected (scored : List ScoredObservation) (t : ℚ) : List ScoredObservation :=
  scored.filter (fun o => decide (o.group = Group.candidate) && decide (t < |o.zScore|))

/-- Loop body, line 47: true_positives = detected[detected.IsTrueOutlier == True]. -/
def true_positives (scored : List ScoredObservation) (t : ℚ) : List ScoredObservation :=
  (detected scored t).filter (fun o => o.isTrueOutlier)

/-- Loop body, line 48: false_positives = detected[detected.IsTrueOutlier == False]. -/
def false_positives (scored : List ScoredObservation) (t : ℚ) : List ScoredObservation :=
  (detected scored t).filter (fun o => !o.isTrueOutlier)

/-- Loop body, line 49:
missed_outliers = df[(df.Set == B) and df.IsTrueOutlier and (abs Z <= threshold)]. -/
def missed_outliers (scored : List ScoredObservation) (t : ℚ) : List ScoredObservation :=
  scored.filter (fun o =>
    decide (o.group = Group.candidate) && o.isTrueOutlier && decide (|o.zScore| ≤ t))

/-- The four counts recorded for one threshold (lines 50-55 and 56-62
record the same four lengths under both dictionaries). -/
structure ThresholdResult where
  total : ℕ
  true_positives : ℕ
  false_positives : ℕ
  missed : ℕ
deriving DecidableEq

/-- One iteration of the threshold loop (lines 46-55): the four counts at
one threshold value. -/
def evaluate (scored : List ScoredObservation) (t : ℚ) : ThresholdResult :=
  { total := (detected scored t).length
    true_positives := (true_positives scored t).length
    false_positives := (false_positives scored t).length
    missed := (missed_outliers scored t).length }

/-- The error kind the spec assigns to threshold evaluation (section 7). -/
inductive ThresholdError where
  | invalidThreshold
deriving DecidableEq

/-- Threshold evaluation with an explicit error channel.  The loop body on
lines 46-54 computes the four counts unconditionally — there is no threshold
validation anywhere in the source — so the channel always carries a result. -/
def evaluateChecked (scored : List ScoredObservation) (t : ℚ) :
    Except ThresholdError ThresholdResult :=
  Except.ok (evaluate scored t)

/-- np.arange(start, stop, step) in exact rational arithmetic: the values
start + i * step for 0 <= i < ceil((stop - start) / step). -/
def arangeQ (start stop step : ℚ) : List ℚ :=
  (List.range (Int.toNat ⌈(stop - start) / step⌉)).map (fun i : ℕ => start + (i : ℚ) * step)

/-- Line 41: thresholds = np.arange(threshold_min, threshold_max + 0.1, 0.1).
The step is fixed at 0.1; the stop bound is threshold_max plus one full step. -/
def thresholds (tmin tmax : ℚ) : List ℚ :=
  arangeQ tmin (tmax + 1 / 10) (1 / 10)

/-- One entry appended to export_results per threshold (lines 56-62):
keys Threshold, Detected, TruePositives, FalsePositives, MissedOutliers. -/
structure ExportRow where
  threshold : ℚ
  detectedCount : ℕ
  truePositives : ℕ
  falsePositives : ℕ
  missedOutliers : ℕ
deriving DecidableEq

/-- The export_results entry built from a threshold and its counts. -/
def toExportRow (t : ℚ) (r : ThresholdResult) : ExportRow :=
  ⟨t, r.total, r.true_positives, r.false_positives, r.missed⟩

/-- The key of the min call on line 65: abs(counts.total - target_anomalies). -/
def absDist (target : ℤ) (p : ℚ × ThresholdResult) : ℤ :=
  |(p.2.total : ℤ) - target|

/-- One comparison step of Python min with a key function: the current best
is replaced only when the new key is strictly smaller, so the first minimum
in iteration order wins. -/
def minStep {α : Type} (key : α → ℤ) (acc y : α) : α :=
  if key y < key acc then y else acc

/-- Line 65: min(results.items(), key = ...) over the insertion-ordered
result rows; none on an empty collection (Python min would raise). -/
def selectBest (target : ℤ) : List (ℚ × ThresholdResult) → Option (ℚ × ThresholdResult)
  | [] => none
  | x :: xs => some (xs.foldl (minStep (absDist target)) x)

/-- What a successful run of analyze_thresholds computes: the
insertion-ordered results dictionary and the min-selected closest row
(the source keeps the row under results[closest_threshold]). -/
structure SweepOutcome where
  rows : List (ℚ × ThresholdResult)
  best : Option (ℚ × ThresholdResult)
deriving DecidableEq

/-- The early-return error path of analyze_thresholds (lines 37-39). -/
inductive AnalysisError where
  | invalidRange
deriving DecidableEq

/-- analyze_thresholds (lines 35-65), with the global export_results passed
and returned explicitly.  If threshold_min > threshold_max the function
warns and returns before touching export_results (the reset on line 43 is
only reached after the check on line 37); otherwise it evaluates every
threshold of the arange sequence, rebuilds export_results, and selects the
closest threshold.  The HTML rendering and plotting are presentation-only
and not modelled. -/
def analyze (scored : List ScoredObservation) (tmin tmax : ℚ) (target : ℤ)
    (exportResults : List ExportRow) :
    Except AnalysisError SweepOutcome × List ExportRow :=
  if tmax < tmin then
    (Except.error AnalysisError.invalidRange, exportResults)
  else
    let rows := (thresholds tmin tmax).map (fun t => (t, evaluate scored t))
    (Except.ok { rows := rows, best := selectBest target rows },
      rows.map (fun p => toExportRow p.1 p.2))

/-- The early-return error path of export_csv_callback (lines 113-115). -/
inductive ExportError where
  | noResultsToExport
deriving DecidableEq

/-- Line 29: the global export_results starts out empty. -/
def initialExportResults : List ExportRow := []

/-- export_csv_callback (lines 112-121): if export_results is empty it warns
and returns without writing anything; otherwise the downloaded file holds
exactly the accumulated rows. -/
def export_csv_callback (exportResults : List ExportRow) :
    Except ExportError (List ExportRow) :=
  if exportResults = [] then Except.error ExportError.noResultsToExport
  else Except.ok exportResults

/-- A small scored dataset used as concrete input in witnesses and
counterexamples. -/
def exampleScored : List ScoredObservation :=
  [⟨24, Group.reference, false, "A1", 0⟩,
   ⟨25, Group.reference, false, "A2", 1⟩,
   ⟨24, Group.candidate, false, "B1", 1 / 2⟩,
   ⟨27, Group.candidate, true, "B2", 3⟩,
   ⟨23, Group.candidate, true, "B3", -2⟩,
   ⟨24, Group.candidate, true, "B4", 1 / 5⟩]

/-! The score computation (lines 24-27 of the source). -/

/-- pandas Series.mean: the sum of the values over their count. -/
def seriesMean (xs : List ℚ) : ℚ := xs.sum / (xs.length : ℚ)

/-- The radicand of pandas Series.std with its default ddof = 1: the sum of
squared deviations from the mean, divided by n - 1. -/
def seriesVar (xs : List ℚ) : ℚ :=
  ((xs.map (fun x => (x - seriesMean xs) ^ 2)).sum) / ((xs.length : ℚ) - 1)

/-- The CPU values of the Set A rows, in frame order
(df[df.Set == A].CPU on lines 25-26). -/
def referenceValues (obs : List Observation) : List ℚ :=
  (obs.filter (fun o => decide (o.group = Group.reference))).map (fun o => o.value)

/-- Line 25: mean = df[df.Set == A].CPU.mean(). -/
def referenceMean (obs : List Observation) : ℚ :=
  seriesMean (referenceValues obs)

/-- Line 26: std = df[df.Set == A].CPU.std(), the sample standard deviation
with divisor n - 1. -/
noncomputable def referenceStd (obs : List Observation) : ℝ :=
  Real.sqrt (seriesVar (referenceValues obs))

/-- An observation together with its Z-Score column entry. -/
structure ScoredObservationR where
  obs : Observation
  zScore : ℝ

/-- Line 27: the vectorized assignment df[Z-Score] = (df.CPU - mean) / std,
one entry per row, in frame order. -/
noncomputable def zscoreColumn (obs : List Observation) : List ScoredObservationR :=
  obs.map (fun o =>
    ⟨o, ((o.value : ℝ) - (referenceMean obs : ℝ)) / referenceStd obs⟩)

/-- The error kinds the spec assigns to the score computation (section 7). -/
inductive ScoreError where
  | insufficientReferenceData
  | degenerateReferenceSet
deriving DecidableEq

/-- The score computation with an explicit error channel.  The source adds
the Z-Score column unconditionally — lines 24-27 perform no validation of
the reference statistics — so the channel always carries a result. -/
noncomputable def computeScores (obs : List Observation) :
    Except ScoreError (List ScoredObservationR) :=
  Except.ok (zscoreColumn obs)

/-- Stated from the spec words of section 4.1, for comparison with the
source formulas: the arithmetic mean. -/
def specArithmeticMean (xs : List ℚ) : ℚ := xs.sum / (xs.length : ℚ)

/-- Stated from the spec words of section 4.1, for comparison with the
source formulas: the unbiased sample standard deviation with divisor n - 1. -/
noncomputable def specSampleStdDev (xs : List ℚ) : ℝ :=
  Real.sqrt ((((xs.map (fun x => (x - specArithmeticMean xs) ^ 2)).sum /
    ((xs.length : ℚ) - 1) : ℚ) : ℝ))

/-- The data set hard-coded on lines 11-22 of the source: six Set A baseline
values, four normal Set B values, six injected Set B outliers. -/
def sourceData : List Observation :=
  [⟨47 / 2, Group.reference, false, "A1"⟩,
   ⟨251 / 10, Group.reference, false, "A2"⟩,
   ⟨114 / 5, Group.reference, false, "A3"⟩,
   ⟨243 / 10, Group.reference, false, "A4"⟩,
   ⟨239 / 10, Group.reference, false, "A5"⟩,
   ⟨247 / 10, Group.reference, false, "A6"⟩,
   ⟨241 / 10, Group.candidate, false, "B1"⟩,
   ⟨119 / 5, Group.candidate, false, "B2"⟩,
   ⟨25, Group.candidate, false, "B3"⟩,
   ⟨122 / 5, Group.candidate, false, "B4"⟩,
   ⟨131 / 5, Group.candidate, true, "B5"⟩,
   ⟨271 / 10, Group.candidate, true, "B6"⟩,
   ⟨259 / 10, Group.candidate, true, "B7"⟩,
   ⟨223 / 10, Group.candidate, true, "B8"⟩,
   ⟨134 / 5, Group.candidate, true, "B9"⟩,
   ⟨43 / 2, Group.candidate, true, "B10"⟩]

/-- The degenerate reference scenario of the spec (section 8): four identical
reference values and one far-off candidate. -/
def degenerateObservations : List Observation :=
  [⟨10, Group.reference, false, "A1"⟩,
   ⟨10, Group.reference, false, "A2"⟩,
   ⟨10, Group.reference, false, "A3"⟩,
   ⟨10, Group.reference, false, "A4"⟩,
   ⟨40, Group.candidate, true, "B1"⟩]

/-! Helper lemmas about filters, the threshold sequence and the
first-minimum fold. -/

/-- The two groups are distinct; used to reduce group filters on concrete data. -/
theorem group_ref_ne_candidate : Group.reference ≠ Group.candidate :=
  fun h => Group.noConfusion h

/-- A pointwise stronger Boolean filter keeps at most as many elements. -/
theorem length_filter_le_of_imp {α : Type} (l : List α) (p q : α → Bool)
    (h : ∀ a ∈ l, p a = true → q a = true) :
    (l.filter p).length ≤ (l.filter q).length := by
  induction l with
  | nil => simp
  | cons a t ih =>
    have ht : ∀ x ∈ t, p x = true → q x = true :=
      fun x hx => h x (List.mem_cons_of_mem a hx)
    rcases hq : q a with _ | _
    · have hp : p a = false := by
        rcases hp : p a with _ | _
        · rfl
        · exact absurd (h a (List.mem_cons_self a t) hp) (by simp [hq])
      simp only [List.filter_cons, hp, hq]
      exact ih ht
    · rcases hp : p a with _ | _
      · simp only [List.filter_cons, hp, hq]
        exact Nat.le_succ_of_le (ih ht)
      · simp only [List.filter_cons, hp, hq, List.length_cons]
        exact Nat.succ_le_succ (ih ht)

/-- Splitting one Boolean filter into two exclusive refinements preserves counts:
if p selects exactly the r-elements satisfying s, and q exactly the r-elements
failing s, then the p-count plus the q-count is the r-count. -/
theorem length_filter_add_length_filter_split {α : Type} (l : List α)
    (p q r s : α → Bool)
    (hp : ∀ a ∈ l, p a = (r a && s a)) (hq : ∀ a ∈ l, q a = (r a && !s a)) :
    (l.filter p).length + (l.filter q).length = (l.filter r).length := by
  induction l with
  | nil => simp
  | cons a t ih =>
    have hpt : ∀ x ∈ t, p x = (r x && s x) := fun x hx => hp x (List.mem_cons_of_mem a hx)
    have hqt : ∀ x ∈ t, q x = (r x && !s x) := fun x hx => hq x (List.mem_cons_of_mem a hx)
    have hpa : p a = (r a && s a) := hp a (List.mem_cons_self a t)
    have hqa : q a = (r a && !s a) := hq a (List.mem_cons_self a t)
    rcases hr : r a with _ | _
    · have hp0 : p a = false := by rw [hpa, hr, Bool.false_and]
      have hq0 : q a = false := by rw [hqa, hr, Bool.false_and]
      simp only [List.filter_cons, hp0, hq0, Bool.false_eq_true, if_false, hr]
      exact ih hpt hqt
    · rcases hs : s a with _ | _
      · have hp0 : p a = false := by rw [hpa, hr, hs, Bool.and_false]
        have hq1 : q a = true := by rw [hqa, hr, hs, Bool.not_false, Bool.and_true]
        simp [List.filter_cons, hp0, hq1, hr]
        have := ih hpt hqt
        omega
      · have hp1 : p a = true := by rw [hpa, hr, hs, Bool.and_true]
        have hq0 : q a = false := by rw [hqa, hr, hs, Bool.not_true, Bool.and_false]
        simp [List.filter_cons, hp1, hq0, hr]
        have := ih hpt hqt
        omega

/-- Deciding a non-strict comparison is the negation of deciding the reversed
strict one. -/
theorem decide_le_eq_not_decide_lt (a b : ℚ) :
    decide (a ≤ b) = !decide (b < a) := by
  rcases le_or_lt a b with h | h
  · simp [h, not_lt_of_le h]
  · simp [h, not_le_of_lt h]

/-- The element count of the arange sequence. -/
theorem arangeQ_length (start stop step : ℚ) :
    (arangeQ start stop step).length = Int.toNat ⌈(stop - start) / step⌉ := by
  simp [arangeQ, List.length_map, List.length_range]

/-- Membership in the arange sequence, characterised exactly. -/
theorem mem_arangeQ {start stop step : ℚ} {t : ℚ} (_hstep : 0 < step) :
    t ∈ arangeQ start stop step ↔
      ∃ i : ℕ, (i : ℚ) < (stop - start) / step ∧ t = start + (i : ℚ) * step := by
  simp only [arangeQ, List.mem_map, List.mem_range]
  constructor
  · rintro ⟨i, hi, rfl⟩
    refine ⟨i, ?_, rfl⟩
    have h1 : (i : ℤ) < ⌈(stop - start) / step⌉ := Int.lt_toNat.mp hi
    have h2 : ((i : ℤ) : ℚ) < (stop - start) / step := by
      by_contra hcon
      push_neg at hcon
      have := Int.ceil_le.mpr hcon
      omega
    exact_mod_cast h2
  · rintro ⟨i, hi, rfl⟩
    refine ⟨i, ?_, rfl⟩
    apply Int.lt_toNat.mpr
    apply Int.lt_ceil.mpr
    exact_mod_cast hi

/-- The swept threshold sequence is strictly ascending. -/
theorem thresholds_pairwise (tmin tmax : ℚ) :
    List.Pairwise (· < ·) (thresholds tmin tmax) := by
  unfold thresholds arangeQ
  refine List.Pairwise.map _ (fun a b hab => ?_) (List.pairwise_lt_range _)
  have hc : (a : ℚ) < (b : ℚ) := by exact_mod_cast hab
  have h10 : (0 : ℚ) < 1 / 10 := by norm_num
  have := mul_lt_mul_of_pos_right hc h10
  linarith

/-- For a valid range the threshold sequence starts at threshold_min. -/
theorem thresholds_head (tmin tmax : ℚ) (h : tmin ≤ tmax) :
    (thresholds tmin tmax).head? = some tmin := by
  unfold thresholds arangeQ
  have hr : (0 : ℚ) < (tmax + 1 / 10 - tmin) / (1 / 10) := by
    apply div_pos
    · linarith
    · norm_num
  have hceil : 0 < ⌈(tmax + 1 / 10 - tmin) / (1 / 10)⌉ := Int.ceil_pos.mpr hr
  have hn : 0 < Int.toNat ⌈(tmax + 1 / 10 - tmin) / (1 / 10)⌉ := Int.lt_toNat.mpr hceil
  cases hd : Int.toNat ⌈(tmax + 1 / 10 - tmin) / (1 / 10)⌉ with
  | zero =>
    rw [hd] at hn
    omega
  | succ n =>
    rw [List.range_succ_eq_map]
    simp

/-- For a valid range the threshold sequence is nonempty. -/
theorem thresholds_ne_nil (tmin tmax : ℚ) (h : tmin ≤ tmax) :
    thresholds tmin tmax ≠ [] := by
  intro hcon
  have := thresholds_head tmin tmax h
  rw [hcon] at this
  simp at this

/-- Every swept threshold lies between threshold_min and
threshold_max plus one full step. -/
theorem mem_thresholds_bounds {tmin tmax t : ℚ} (ht : t ∈ thresholds tmin tmax) :
    tmin ≤ t ∧ t < tmax + 1 / 10 := by
  rw [thresholds, mem_arangeQ (by norm_num)] at ht
  obtain ⟨i, hi, rfl⟩ := ht
  constructor
  · have : (0 : ℚ) ≤ (i : ℚ) * (1 / 10) := by positivity
    linarith
  · have h10 : (0 : ℚ) < 1 / 10 := by norm_num
    have := (lt_div_iff h10).mp hi
    linarith

/-- Whenever threshold_max lies on the 0.1-grid above threshold_min it is
itself one of the swept thresholds. -/
theorem max_mem_thresholds {tmin tmax : ℚ} (k : ℕ)
    (hk : tmax = tmin + (k : ℚ) * (1 / 10)) :
    tmax ∈ thresholds tmin tmax := by
  rw [thresholds, mem_arangeQ (by norm_num)]
  refine ⟨k, ?_, hk⟩
  rw [hk]
  have : (tmin + (k : ℚ) * (1 / 10) + 1 / 10 - tmin) / (1 / 10) = (k : ℚ) + 1 := by
    field_simp
    ring
  rw [this]
  linarith

/-- The fold behind Python min either keeps its initial value or returns a
list element. -/
theorem foldl_minStep_mem {α : Type} (key : α → ℤ) (l : List α) (acc : α) :
    l.foldl (minStep key) acc = acc ∨ l.foldl (minStep key) acc ∈ l := by
  induction l generalizing acc with
  | nil => exact Or.inl rfl
  | cons b t ih =>
    rw [List.foldl_cons]
    rcases ih (minStep key acc b) with h | h
    · rw [h]
      unfold minStep
      by_cases hb : key b < key acc
      · rw [if_pos hb]
        exact Or.inr (List.mem_cons_self b t)
      · rw [if_neg hb]
        exact Or.inl rfl
    · exact Or.inr (List.mem_cons_of_mem b h)

/-- The fold behind Python min never increases the key of its initial value. -/
theorem foldl_minStep_le_init {α : Type} (key : α → ℤ) (l : List α) (acc : α) :
    key (l.foldl (minStep key) acc) ≤ key acc := by
  induction l generalizing acc with
  | nil => exact le_refl _
  | cons b t ih =>
    rw [List.foldl_cons]
    refine le_trans (ih (minStep key acc b)) ?_
    unfold minStep
    by_cases hb : key b < key acc
    · rw [if_pos hb]
      exact le_of_lt hb
    · rw [if_neg hb]

/-- The fold behind Python min reaches a key no larger than any list element. -/
theorem foldl_minStep_le_mem {α : Type} (key : α → ℤ) (l : List α) (acc : α) :
    ∀ y ∈ l, key (l.foldl (minStep key) acc) ≤ key y := by
  induction l generalizing acc with
  | nil => intro y hy; cases hy
  | cons b t ih =>
    intro y hy
    rw [List.foldl_cons]
    rcases List.mem_cons.mp hy with rfl | hyt
    · refine le_trans (foldl_minStep_le_init key t (minStep key acc y)) ?_
      unfold minStep
      by_cases hb : key y < key acc
      · rw [if_pos hb]
      · rw [if_neg hb]
        exact le_of_not_lt hb
    · exact ih (minStep key acc b) y hyt

/-- The fold behind Python min only ever replaces the running value by one with
a strictly smaller key. -/
theorem foldl_minStep_eq_or_lt {α : Type} (key : α → ℤ) (l : List α) (acc : α) :
    l.foldl (minStep key) acc = acc ∨ key (l.foldl (minStep key) acc) < key acc := by
  induction l generalizing acc with
  | nil => exact Or.inl rfl
  | cons b t ih =>
    rw [List.foldl_cons]
    by_cases hb : key b < key acc
    · right
      have hstep : minStep key acc b = b := by unfold minStep; rw [if_pos hb]
      rw [hstep]
      exact lt_of_le_of_lt (foldl_minStep_le_init key t b) hb
    · have hstep : minStep key acc b = acc := by unfold minStep; rw [if_neg hb]
      rw [hstep]
      exact ih acc

/-- In a fold over elements whose ordering field strictly ascends, a tie in the
key is resolved in favour of the earliest element, hence the one with the
smallest ordering field. -/
theorem foldl_minStep_first {α : Type} (key : α → ℤ) (ord : α → ℚ)
    (l : List α) (acc : α)
    (hpw : List.Pairwise (fun p q => ord p < ord q) (acc :: l)) :
    ∀ y ∈ acc :: l, key y = key (l.foldl (minStep key) acc) →
      ord (l.foldl (minStep key) acc) ≤ ord y := by
  induction l generalizing acc with
  | nil =>
    intro y hy hk
    rcases List.mem_cons.mp hy with rfl | hyt
    · exact le_refl _
    · cases hyt
  | cons b t ih =>
    intro y hy hk
    rw [List.foldl_cons] at hk ⊢
    have hab : ord acc < ord b := (List.pairwise_cons.mp hpw).1 b (List.mem_cons_self b t)
    have hat : ∀ x ∈ t, ord acc < ord x := fun x hx =>
      (List.pairwise_cons.mp hpw).1 x (List.mem_cons_of_mem b hx)
    have hbt : List.Pairwise (fun p q => ord p < ord q) (b :: t) :=
      (List.pairwise_cons.mp hpw).2
    by_cases hb : key b < key acc
    · have hstep : minStep key acc b = b := by unfold minStep; rw [if_pos hb]
      rw [hstep] at hk ⊢
      rcases List.mem_cons.mp hy with heq | hyt
      · exfalso
        have hle : key (t.foldl (minStep key) b) ≤ key b := foldl_minStep_le_init key t b
        rw [heq] at hk
        rw [← hk] at hle
        exact absurd (lt_of_le_of_lt hle hb) (lt_irrefl _)
      · exact ih b hbt y hyt hk
    · have hstep : minStep key acc b = acc := by unfold minStep; rw [if_neg hb]
      rw [hstep] at hk ⊢
      have hac : List.Pairwise (fun p q => ord p < ord q) (acc :: t) :=
        List.pairwise_cons.mpr ⟨hat, (List.pairwise_cons.mp hbt).2⟩
      rcases List.mem_cons.mp hy with heq | hyt
      · refine ih acc hac y ?_ hk
        rw [heq]
        exact List.mem_cons_self acc t
      · rcases List.mem_cons.mp hyt with heq | hyt'
        · rcases foldl_minStep_eq_or_lt key t acc with he | hlt
          · rw [he, heq]
            exact le_of_lt hab
          · exfalso
            have h1 : key acc ≤ key y := by
              rw [heq]
              exact le_of_not_lt hb
            rw [hk] at h1
            exact absurd (lt_of_le_of_lt h1 hlt) (lt_irrefl _)
        · exact ih acc hac y (List.mem_cons_of_mem acc hyt') hk

/-- Specification of the min call on line 65 over a nonempty row list whose
thresholds strictly ascend: it returns a row of the list whose key is a global
minimum, and among tied keys the row with the smallest threshold. -/
theorem selectBest_spec (target : ℤ) (rows : List (ℚ × ThresholdResult))
    (hne : rows ≠ []) (hpw : List.Pairwise (fun p q => p.1 < q.1) rows) :
    ∃ br, selectBest target rows = some br ∧ br ∈ rows ∧
      (∀ p ∈ rows, absDist target br ≤ absDist target p) ∧
      (∀ p ∈ rows, absDist target p = absDist target br → br.1 ≤ p.1) := by
  cases rows with
  | nil => exact absurd rfl hne
  | cons x xs =>
    refine ⟨xs.foldl (minStep (absDist target)) x, rfl, ?_, ?_, ?_⟩
    · rcases foldl_minStep_mem (absDist target) xs x with h | h
      · rw [h]
        exact List.mem_cons_self x xs
      · exact List.mem_cons_of_mem x h
    · intro p hp
      rcases List.mem_cons.mp hp with rfl | hpt
      · exact foldl_minStep_le_init (absDist target) xs p
      · exact foldl_minStep_le_mem (absDist target) xs x p hpt
    · intro p hp hk
      exact foldl_minStep_first (absDist target) (fun p => p.1) xs x hpw p hp hk

/-! Claim theorems. -/

/-- C3: a CANDIDATE observation is detected exactly when its absolute z-score
exceeds the threshold strictly; an observation with absolute z-score equal to
the threshold is not flagged, and when it is a true outlier it is counted as
missed. -/
theorem candidate_detected_iff_strict (scored : List ScoredObservation)
    (t : ℚ) (o : ScoredObservation) (hmem : o ∈ scored)
    (hg : o.group = Group.candidate) :
    (o ∈ detected scored t ↔ t < |o.zScore|) ∧
    (|o.zScore| = t →
      o ∉ detected scored t ∧
      (o.isTrueOutlier = true → o ∈ missed_outliers scored t)) := by
  constructor
  · constructor
    · intro hd
      have h := (List.mem_filter.mp hd).2
      simp only [Bool.and_eq_true, decide_eq_true_eq] at h
      exact h.2
    · intro hlt
      refine List.mem_filter.mpr ⟨hmem, ?_⟩
      simp only [Bool.and_eq_true, decide_eq_true_eq]
      exact ⟨hg, hlt⟩
  · intro heq
    constructor
    · intro hd
      have h := (List.mem_filter.mp hd).2
      simp only [Bool.and_eq_true, decide_eq_true_eq] at h
      rw [heq] at h
      exact absurd h.2 (lt_irrefl t)
    · intro hout
      refine List.mem_filter.mpr ⟨hmem, ?_⟩
      simp only [Bool.and_eq_true, decide_eq_true_eq]
      exact ⟨⟨hg, hout⟩, le_of_eq heq⟩

/-- Witness for C3 at a concrete boundary point: the row labelled B2 has
z-score exactly 3, and at threshold 3 it is missed, not detected. -/
theorem candidate_detected_iff_strict_witness :
    (⟨27, Group.candidate, true, "B2", 3⟩ : ScoredObservation) ∈ exampleScored ∧
    ((⟨27, Group.candidate, true, "B2", 3⟩ : ScoredObservation) ∈
        detected exampleScored 3 ↔ (3 : ℚ) < |(3 : ℚ)|) ∧
    (|(3 : ℚ)| = 3 →
      (⟨27, Group.candidate, true, "B2", 3⟩ : ScoredObservation) ∉
        detected exampleScored 3 ∧
      (true = true →
        (⟨27, Group.candidate, true, "B2", 3⟩ : ScoredObservation) ∈
          missed_outliers exampleScored 3)) := by
  constructor
  · simp [exampleScored]
  · exact candidate_detected_iff_strict exampleScored 3 _ (by simp [exampleScored]) rfl

/-- Both section 3 invariants, established directly for the evaluation of an
arbitrary threshold. -/
theorem evaluate_invariants (scored : List ScoredObservation) (t : ℚ) :
    (evaluate scored t).total =
      (evaluate scored t).true_positives + (evaluate scored t).false_positives ∧
    (evaluate scored t).true_positives + (evaluate scored t).missed =
      (scored.filter
        (fun o => decide (o.group = Group.candidate) && o.isTrueOutlier)).length := by
  constructor
  · have h1 := length_filter_add_length_filter_split (detected scored t)
      (fun o => o.isTrueOutlier) (fun o => !o.isTrueOutlier)
      (fun _ => true) (fun o => o.isTrueOutlier)
      (fun a _ => by simp) (fun a _ => by simp)
    rw [List.filter_true] at h1
    show (detected scored t).length =
      ((detected scored t).filter (fun o => o.isTrueOutlier)).length +
        ((detected scored t).filter (fun o => !o.isTrueOutlier)).length
    exact h1.symm
  · have h2 : true_positives scored t =
        scored.filter (fun o => o.isTrueOutlier &&
          (decide (o.group = Group.candidate) && decide (t < |o.zScore|))) := by
      unfold true_positives detected
      rw [List.filter_filter]
    have h3 := length_filter_add_length_filter_split scored
      (fun o => o.isTrueOutlier &&
        (decide (o.group = Group.candidate) && decide (t < |o.zScore|)))
      (fun o => decide (o.group = Group.candidate) && o.isTrueOutlier &&
        decide (|o.zScore| ≤ t))
      (fun o => decide (o.group = Group.candidate) && o.isTrueOutlier)
      (fun o => decide (t < |o.zScore|))
      (fun a _ => by
        cases hu : a.isTrueOutlier <;>
          cases hc : decide (a.group = Group.candidate) <;>
            cases hd : decide (t < |a.zScore|) <;> simp [hu, hc, hd])
      (fun a _ => by
        simp only [decide_le_eq_not_decide_lt])
    show (true_positives scored t).length + (missed_outliers scored t).length = _
    rw [h2]
    exact h3

/-- C4: every row produced by a sweep satisfies totalDetected equals
truePositives plus falsePositives, and truePositives plus missed equals the
scored dataset's count of true CANDIDATE outliers, the same constant for
every threshold. -/
theorem sweep_row_invariants (scored : List ScoredObservation) (tmin tmax : ℚ)
    (target : ℤ) (st : List ExportRow) (outcome : SweepOutcome)
    (st' : List ExportRow)
    (hok : analyze scored tmin tmax target st = (Except.ok outcome, st'))
    (p : ℚ × ThresholdResult) (hp : p ∈ outcome.rows) :
    p.2.total = p.2.true_positives + p.2.false_positives ∧
    p.2.true_positives + p.2.missed =
      (scored.filter
        (fun o => decide (o.group = Group.candidate) && o.isTrueOutlier)).length := by
  unfold analyze at hok
  by_cases hcmp : tmax < tmin
  · rw [if_pos hcmp] at hok
    exact absurd (congrArg Prod.fst hok) (by simp)
  · rw [if_neg hcmp] at hok
    have hrows : outcome.rows =
        (thresholds tmin tmax).map (fun t => (t, evaluate scored t)) := by
      have := congrArg Prod.fst hok
      simp only at this
      have houtcome := Except.ok.inj this
      rw [← houtcome]
    rw [hrows] at hp
    obtain ⟨t, _, hpt⟩ := List.mem_map.mp hp
    rw [← hpt]
    exact evaluate_invariants scored t

/-- Witness for C4 on a concrete successful sweep and one of its rows. -/
theorem sweep_row_invariants_witness :
    analyze exampleScored (1 / 2) (1 / 2) 0 [] =
      (Except.ok ⟨[(1 / 2, evaluate exampleScored (1 / 2))],
        some (1 / 2, evaluate exampleScored (1 / 2))⟩,
       [toExportRow (1 / 2) (evaluate exampleScored (1 / 2))]) ∧
    (1 / 2, evaluate exampleScored (1 / 2)) ∈
      ([(1 / 2, evaluate exampleScored (1 / 2))] :
        List (ℚ × ThresholdResult)) ∧
    ((1 / 2 : ℚ), evaluate exampleScored (1 / 2)).2.total =
      ((1 / 2 : ℚ), evaluate exampleScored (1 / 2)).2.true_positives +
        ((1 / 2 : ℚ), evaluate exampleScored (1 / 2)).2.false_positives ∧
    ((1 / 2 : ℚ), evaluate exampleScored (1 / 2)).2.true_positives +
        ((1 / 2 : ℚ), evaluate exampleScored (1 / 2)).2.missed =
      (exampleScored.filter
        (fun o => decide (o.group = Group.candidate) && o.isTrueOutlier)).length := by
  have hts : thresholds (1 / 2) (1 / 2) = [1 / 2] := by
    have h1 : ((1 : ℚ) / 2 + 1 / 10 - 1 / 2) / (1 / 10) = 1 := by norm_num
    unfold thresholds arangeQ
    rw [h1]
    simp [List.range_succ]
  have hok : analyze exampleScored (1 / 2) (1 / 2) 0 [] =
      (Except.ok ⟨[(1 / 2, evaluate exampleScored (1 / 2))],
        some (1 / 2, evaluate exampleScored (1 / 2))⟩,
       [toExportRow (1 / 2) (evaluate exampleScored (1 / 2))]) := by
    unfold analyze
    rw [if_neg (lt_irrefl (1 / 2 : ℚ))]
    rw [hts]
    rfl
  refine ⟨hok, List.mem_cons_self _ _, ?_⟩
  exact sweep_row_invariants exampleScored (1 / 2) (1 / 2) 0 [] _ _ hok _
    (List.mem_cons_self _ _)

/-- C5: with the dataset fixed, the detected count is monotonically
non-increasing as the threshold rises. -/
theorem total_detected_antitone (scored : List ScoredObservation) (t1 t2 : ℚ)
    (h : t1 < t2) : (evaluate scored t2).total ≤ (evaluate scored t1).total := by
  show (detected scored t2).length ≤ (detected scored t1).length
  unfold detected
  apply length_filter_le_of_imp
  intro a _ ha
  simp only [Bool.and_eq_true, decide_eq_true_eq] at ha ⊢
  exact ⟨ha.1, lt_trans h ha.2⟩

/-- Witness for C5 at concrete thresholds 1 and 2 on the example dataset. -/
theorem total_detected_antitone_witness :
    (1 : ℚ) < 2 ∧ (evaluate exampleScored 2).total ≤ (evaluate exampleScored 1).total :=
  ⟨by norm_num, total_detected_antitone exampleScored 1 2 (by norm_num)⟩

/-- The other direction of the group disequality, for reducing reference
filters on concrete data. -/
theorem group_cand_ne_reference : Group.candidate ≠ Group.reference :=
  fun h => Group.noConfusion h

/-- C9: when threshold_min exceeds threshold_max the analysis aborts with the
invalid-range error, produces no result rows, and leaves the previously
accumulated export rows unchanged. -/
theorem invalid_range_aborts (scored : List ScoredObservation) (tmin tmax : ℚ)
    (target : ℤ) (st : List ExportRow) (h : tmax < tmin) :
    analyze scored tmin tmax target st =
      (Except.error AnalysisError.invalidRange, st) := by
  unfold analyze
  rw [if_pos h]

/-- Witness for C9: a concrete inverted range aborts and keeps the one
previously stored export row. -/
theorem invalid_range_aborts_witness :
    (1 : ℚ) < 2 ∧
    analyze exampleScored 2 1 0 [toExportRow 3 (evaluate exampleScored 3)] =
      (Except.error AnalysisError.invalidRange,
       [toExportRow 3 (evaluate exampleScored 3)]) :=
  ⟨by norm_num, invalid_range_aborts exampleScored 2 1 0 _ (by norm_num)⟩

/-- C10: exporting with the initial, never-filled export_results signals the
no-results condition instead of carrying a file payload. -/
theorem export_before_sweep_signals_no_results :
    export_csv_callback initialExportResults =
      Except.error ExportError.noResultsToExport := by
  unfold export_csv_callback initialExportResults
  rw [if_pos rfl]

/-- C8 fails on the code: evaluating the example dataset at threshold -1
returns an ordinary result (all four candidates detected, three of them true
positives), not an invalid-threshold error. -/
theorem negative_threshold_not_rejected :
    evaluateChecked exampleScored (-1) = Except.ok ⟨4, 3, 1, 0⟩ ∧
    evaluateChecked exampleScored (-1) ≠
      Except.error ThresholdError.invalidThreshold := by
  have h : evaluate exampleScored (-1) = ⟨4, 3, 1, 0⟩ := by
    norm_num [evaluate, detected, true_positives, false_positives, missed_outliers,
      exampleScored, List.filter_cons, abs_of_nonneg, abs_of_nonpos,
      group_ref_ne_candidate]
  constructor
  · unfold evaluateChecked
    rw [h]
  · unfold evaluateChecked
    simp

/-- C8 amended: threshold evaluation performs no validation at all; a
negative threshold is processed normally, and since every absolute z-score
is nonnegative it detects every CANDIDATE observation, classifies every true
CANDIDATE outlier as a true positive and every other CANDIDATE as a false
positive, and misses nothing. -/
theorem negative_threshold_detects_all (scored : List ScoredObservation)
    (t : ℚ) (ht : t < 0) :
    evaluate scored t =
      { total := (scored.filter (fun o => decide (o.group = Group.candidate))).length
        true_positives := (scored.filter (fun o =>
          decide (o.group = Group.candidate) && o.isTrueOutlier)).length
        false_positives := (scored.filter (fun o =>
          decide (o.group = Group.candidate) && !o.isTrueOutlier)).length
        missed := 0 } := by
  have hdet : detected scored t =
      scored.filter (fun o => decide (o.group = Group.candidate)) := by
    unfold detected
    apply List.filter_congr
    intro a _
    have hz : decide (t < |a.zScore|) = true :=
      decide_eq_true (lt_of_lt_of_le ht (abs_nonneg _))
    rw [hz, Bool.and_true]
  have hmiss : missed_outliers scored t = [] := by
    unfold missed_outliers
    rw [List.filter_eq_nil_iff]
    intro a _
    have hz : ¬ (|a.zScore| ≤ t) := not_le.mpr (lt_of_lt_of_le ht (abs_nonneg _))
    simp [hz]
  have htp : true_positives scored t =
      scored.filter (fun o =>
        decide (o.group = Group.candidate) && o.isTrueOutlier) := by
    unfold true_positives
    rw [hdet, List.filter_filter]
    apply List.filter_congr
    intro a _
    rw [Bool.and_comm]
  have hfp : false_positives scored t =
      scored.filter (fun o =>
        decide (o.group = Group.candidate) && !o.isTrueOutlier) := by
    unfold false_positives
    rw [hdet, List.filter_filter]
    apply List.filter_congr
    intro a _
    rw [Bool.and_comm]
  unfold evaluate
  rw [hdet, htp, hfp, hmiss]
  rfl

/-- Witness for C8 amended at threshold -1 on the example dataset. -/
theorem negative_threshold_detects_all_witness :
    (-1 : ℚ) < 0 ∧
    evaluate exampleScored (-1) =
      { total := (exampleScored.filter
          (fun o => decide (o.group = Group.candidate))).length
        true_positives := (exampleScored.filter (fun o =>
          decide (o.group = Group.candidate) && o.isTrueOutlier)).length
        false_positives := (exampleScored.filter (fun o =>
          decide (o.group = Group.candidate) && !o.isTrueOutlier)).length
        missed := 0 } :=
  ⟨by norm_num, negative_threshold_detects_all exampleScored (-1) (by norm_num)⟩

/-- C2 fails on the code: the step of the sweep is hard-wired to 0.1 and is
not a caller parameter, so the sweep from 0.5 to 1.0 produces six result
rows (0.5, 0.6, 0.7, 0.8, 0.9, 1.0), not the two the claim requires. -/
theorem sweep_half_to_one_has_six_rows :
    ((analyze exampleScored (1 / 2) 1 0 []).1.map
      (fun o => o.rows.length)) = Except.ok 6 ∧
    (analyze exampleScored (1 / 2) 1 0 []).2.length = 6 ∧
    (6 : ℕ) ≠ 2 := by
  have hts : thresholds (1 / 2) 1 = [1 / 2, 3 / 5, 7 / 10, 4 / 5, 9 / 10, 1] := by
    have h6 : ((1 : ℚ) + 1 / 10 - 1 / 2) / (1 / 10) = 6 := by norm_num
    unfold thresholds arangeQ
    rw [h6]
    have hr : List.range (Int.toNat ⌈(6 : ℚ)⌉) = [0, 1, 2, 3, 4, 5] := by
      norm_num
      rfl
    rw [hr]
    norm_num
  refine ⟨?_, ?_, by norm_num⟩
  · unfold analyze
    rw [if_neg (by norm_num : ¬ (1 : ℚ) < 1 / 2)]
    rw [hts]
    rfl
  · unfold analyze
    rw [if_neg (by norm_num : ¬ (1 : ℚ) < 1 / 2)]
    rw [hts]
    rfl

/-- C2 amended: the step is fixed at 0.1 rather than chosen by the caller.
For any valid range the swept sequence consists of exactly the values
threshold_min + i * 0.1 for natural i with i below 10 * (threshold_max -
threshold_min) + 1; it is strictly ascending, starts at threshold_min,
stays strictly below threshold_max + 0.1 in exact arithmetic, and contains
threshold_max itself whenever the range is a whole multiple of 0.1.  In
particular the sweep from 0.5 to 1.0 yields six rows, not two. -/
theorem threshold_sequence_fixed_step (tmin tmax : ℚ) (h : tmin ≤ tmax) :
    (∀ t, t ∈ thresholds tmin tmax ↔
      ∃ i : ℕ, (i : ℚ) < 10 * (tmax - tmin) + 1 ∧
        t = tmin + (i : ℚ) * (1 / 10)) ∧
    List.Pairwise (· < ·) (thresholds tmin tmax) ∧
    (thresholds tmin tmax).head? = some tmin ∧
    (∀ t ∈ thresholds tmin tmax, tmin ≤ t ∧ t < tmax + 1 / 10) ∧
    (∀ k : ℕ, tmax = tmin + (k : ℚ) * (1 / 10) →
      tmax ∈ thresholds tmin tmax) := by
  have hdiv : (tmax + 1 / 10 - tmin) / (1 / 10) = 10 * (tmax - tmin) + 1 := by
    field_simp
    ring
  refine ⟨?_, thresholds_pairwise tmin tmax, thresholds_head tmin tmax h,
    fun t ht => mem_thresholds_bounds ht, fun k hk => max_mem_thresholds k hk⟩
  intro t
  rw [thresholds, mem_arangeQ (by norm_num), hdiv]

/-- Witness for C2 amended at the spec scenario range 0.5 to 1.0. -/
theorem threshold_sequence_fixed_step_witness :
    (1 : ℚ) / 2 ≤ 1 ∧
    ((∀ t, t ∈ thresholds (1 / 2) 1 ↔
      ∃ i : ℕ, (i : ℚ) < 10 * ((1 : ℚ) - 1 / 2) + 1 ∧
        t = 1 / 2 + (i : ℚ) * (1 / 10)) ∧
    List.Pairwise (· < ·) (thresholds (1 / 2) 1) ∧
    (thresholds (1 / 2) 1).head? = some (1 / 2) ∧
    (∀ t ∈ thresholds (1 / 2) 1, (1 : ℚ) / 2 ≤ t ∧ t < 1 + 1 / 10) ∧
    (∀ k : ℕ, (1 : ℚ) = 1 / 2 + (k : ℚ) * (1 / 10) →
      (1 : ℚ) ∈ thresholds (1 / 2) 1)) :=
  ⟨by norm_num, threshold_sequence_fixed_step (1 / 2) 1 (by norm_num)⟩

/-- C1: for any valid sweep the analysis succeeds and selects a row of the
swept sequence whose detected count minimises the absolute distance to the
target over the whole sequence, tie-broken towards the smallest threshold. -/
theorem best_threshold_first_min (scored : List ScoredObservation)
    (tmin tmax : ℚ) (target : ℤ) (st : List ExportRow) (h : tmin ≤ tmax) :
    ∃ outcome st2,
      analyze scored tmin tmax target st = (Except.ok outcome, st2) ∧
      ∃ br, outcome.best = some br ∧ br ∈ outcome.rows ∧
        (∀ p ∈ outcome.rows, absDist target br ≤ absDist target p) ∧
        (∀ p ∈ outcome.rows,
          absDist target p = absDist target br → br.1 ≤ p.1) := by
  have hne : (thresholds tmin tmax).map (fun t => (t, evaluate scored t)) ≠ [] := by
    rw [Ne, List.map_eq_nil_iff]
    exact thresholds_ne_nil tmin tmax h
  have hpw : List.Pairwise (fun p q : ℚ × ThresholdResult => p.1 < q.1)
      ((thresholds tmin tmax).map (fun t => (t, evaluate scored t))) :=
    List.Pairwise.map _ (fun a b hab => hab) (thresholds_pairwise tmin tmax)
  obtain ⟨br, hsel, hmem, hmin, htie⟩ := selectBest_spec target _ hne hpw
  refine ⟨{ rows := (thresholds tmin tmax).map (fun t => (t, evaluate scored t))
            best := selectBest target
              ((thresholds tmin tmax).map (fun t => (t, evaluate scored t))) },
          ((thresholds tmin tmax).map (fun t => (t, evaluate scored t))).map
            (fun p => toExportRow p.1 p.2),
          ?_, br, hsel, hmem, hmin, htie⟩
  unfold analyze
  rw [if_neg (not_lt.mpr h)]

/-- Witness for C1 on the concrete sweep from 0.5 to 1.0 with target 0. -/
theorem best_threshold_first_min_witness :
    (1 : ℚ) / 2 ≤ 1 ∧
    ∃ outcome st2,
      analyze exampleScored (1 / 2) 1 0 [] = (Except.ok outcome, st2) ∧
      ∃ br, outcome.best = some br ∧ br ∈ outcome.rows ∧
        (∀ p ∈ outcome.rows, absDist 0 br ≤ absDist 0 p) ∧
        (∀ p ∈ outcome.rows, absDist 0 p = absDist 0 br → br.1 ≤ p.1) :=
  ⟨by norm_num, best_threshold_first_min exampleScored (1 / 2) 1 0 [] (by norm_num)⟩

/-- C6: scoring adds one z-score per input row, in frame order, equal to
(value - referenceMean) / referenceStdDev, where the reference statistics
are the spec arithmetic mean and the spec unbiased sample standard
deviation (divisor n - 1) of the REFERENCE-group values only. -/
theorem zscore_column_matches_spec (obs : List Observation)
    (h : 0 < seriesVar (referenceValues obs)) :
    (zscoreColumn obs).length = obs.length ∧
    ∀ i, (hi : i < obs.length) →
      (zscoreColumn obs)[i]? =
        some ⟨obs[i],
          ((obs[i].value : ℝ) -
            (specArithmeticMean (referenceValues obs) : ℝ)) /
            specSampleStdDev (referenceValues obs)⟩ := by
  constructor
  · unfold zscoreColumn
    exact List.length_map _ _
  · intro i hi
    unfold zscoreColumn
    rw [List.getElem?_map, List.getElem?_eq_getElem hi]
    rfl

/-- Witness for C6 on the data set hard-coded in the source. -/
theorem zscore_column_matches_spec_witness :
    0 < seriesVar (referenceValues sourceData) ∧
    ((zscoreColumn sourceData).length = sourceData.length ∧
    ∀ i, (hi : i < sourceData.length) →
      (zscoreColumn sourceData)[i]? =
        some ⟨sourceData[i],
          ((sourceData[i].value : ℝ) -
            (specArithmeticMean (referenceValues sourceData) : ℝ)) /
            specSampleStdDev (referenceValues sourceData)⟩) := by
  have h : 0 < seriesVar (referenceValues sourceData) := by
    norm_num [sourceData, referenceValues, seriesVar, seriesMean,
      List.filter_cons, group_ref_ne_candidate, group_cand_ne_reference]
  exact ⟨h, zscore_column_matches_spec sourceData h⟩

/-- The sum of a constant list is its length times the constant. -/
theorem list_sum_eq_length_mul {xs : List ℚ} {c : ℚ} (h : ∀ x ∈ xs, x = c) :
    xs.sum = (xs.length : ℚ) * c := by
  induction xs with
  | nil => simp
  | cons a t ih =>
    have ha : a = c := h a (List.mem_cons_self a t)
    have ht : ∀ x ∈ t, x = c := fun x hx => h x (List.mem_cons_of_mem a hx)
    rw [List.sum_cons, ih ht, ha, List.length_cons]
    push_cast
    ring

/-- C7 fails on the code: in the degenerate scenario (four identical
reference values) the sample variance is zero, yet the score computation
returns one scored row per observation instead of failing — no
degenerate-reference check exists, so in floating point the division by a
zero standard deviation would yield non-finite z-scores rather than an
error. -/
theorem degenerate_reference_not_rejected :
    seriesVar (referenceValues degenerateObservations) = 0 ∧
    computeScores degenerateObservations =
      Except.ok (zscoreColumn degenerateObservations) ∧
    (zscoreColumn degenerateObservations).length = 5 ∧
    computeScores degenerateObservations ≠
      Except.error ScoreError.degenerateReferenceSet := by
  refine ⟨?_, rfl, ?_, ?_⟩
  · norm_num [degenerateObservations, referenceValues, seriesVar, seriesMean,
      List.filter_cons, group_ref_ne_candidate, group_cand_ne_reference]
  · unfold zscoreColumn degenerateObservations
    rw [List.length_map]
    rfl
  · unfold computeScores
    simp

/-- C7 amended: the score computation performs no degenerate-reference
check.  Whenever the REFERENCE values all coincide the sample variance is
zero, yet the computation still returns one scored observation per input
row and signals no error (in floating point the resulting z-scores would be
non-finite). -/
theorem degenerate_reference_scores_without_error (obs : List Observation)
    (c : ℚ) (hc : ∀ x ∈ referenceValues obs, x = c) :
    seriesVar (referenceValues obs) = 0 ∧
    computeScores obs = Except.ok (zscoreColumn obs) ∧
    (zscoreColumn obs).length = obs.length := by
  refine ⟨?_, rfl, by unfold zscoreColumn; exact List.length_map _ _⟩
  unfold seriesVar seriesMean
  rcases hempty : referenceValues obs with _ | ⟨v, vs⟩
  · simp
  · rw [hempty] at hc
    have hlen : (((v :: vs).length : ℚ)) ≠ 0 := by
      rw [List.length_cons]
      push_cast
      positivity
    have hmean : (v :: vs).sum / (((v :: vs).length : ℚ)) = c := by
      rw [list_sum_eq_length_mul hc]
      exact mul_div_cancel_left₀ c hlen
    have hzero : ((v :: vs).map
        (fun x => (x - (v :: vs).sum / (((v :: vs).length : ℚ))) ^ 2)).sum = 0 := by
      apply List.sum_eq_zero
      intro y hy
      obtain ⟨x, hx, rfl⟩ := List.mem_map.mp hy
      rw [hmean, hc x hx]
      ring
    rw [hzero, zero_div]

/-- Witness for C7 amended on the degenerate scenario data. -/
theorem degenerate_reference_scores_without_error_witness :
    (∀ x ∈ referenceValues degenerateObservations, x = 10) ∧
    (seriesVar (referenceValues degenerateObservations) = 0 ∧
     computeScores degenerateObservations =
       Except.ok (zscoreColumn degenerateObservations) ∧
     (zscoreColumn degenerateObservations).length =
       degenerateObservations.length) := by
  have hc : ∀ x ∈ referenceValues degenerateObservations, x = 10 := by
    simp [referenceValues, degenerateObservations, List.filter_cons,
      group_cand_ne_reference]
  exact ⟨hc, degenerate_reference_scores_without_error degenerateObservations 10 hc⟩

end ZScore
